import Mathlib

/-!
Verification development for the personal budget tracker page
(src/app/page.tsx). The page is a client-side React component; its core
logic (currency conversion, exchange-rate cache, ledger mutations,
summary/breakdown, JSON import/export) is embedded here as pure Lean
functions. JavaScript numbers are modelled exactly (rationals plus NaN
and the two infinities); IEEE rounding of doubles is not modelled, so
all arithmetic facts below are about the exact-arithmetic semantics of
the source expressions.

Rational arithmetic is routed through kernel-reducible wrappers (qAdd,
qMul, qDiv, pow10, built on Rat.divInt) so that concrete inputs can be
evaluated by decide; bridge lemmas identify the wrappers with the
standard field operations for symbolic reasoning.
-/

/-- Kernel-reducible rational addition. -/
def qAdd (a b : ℚ) : ℚ := Rat.divInt (a.num * b.den + b.num * a.den) ((a.den : ℤ) * b.den)

/-- Kernel-reducible rational multiplication. -/
def qMul (a b : ℚ) : ℚ := Rat.divInt (a.num * b.num) ((a.den : ℤ) * b.den)

/-- Kernel-reducible rational division. -/
def qDiv (a b : ℚ) : ℚ := Rat.divInt (a.num * b.den) ((a.den : ℤ) * b.num)

/-- Kernel-reducible power of ten. -/
def pow10 (n : ℕ) : ℚ := ((10 ^ n : ℕ) : ℚ)

theorem qAdd_eq (a b : ℚ) : qAdd a b = a + b := by
  rw [qAdd, Rat.divInt_eq_div]
  have hda : ((a.den : ℤ) : ℚ) ≠ 0 := by exact_mod_cast a.den_nz
  have hdb : ((b.den : ℤ) : ℚ) ≠ 0 := by exact_mod_cast b.den_nz
  conv_rhs => rw [← Rat.num_div_den a, ← Rat.num_div_den b]
  push_cast
  field_simp

theorem qMul_eq (a b : ℚ) : qMul a b = a * b := by
  rw [qMul, Rat.divInt_eq_div]
  have hda : ((a.den : ℤ) : ℚ) ≠ 0 := by exact_mod_cast a.den_nz
  have hdb : ((b.den : ℤ) : ℚ) ≠ 0 := by exact_mod_cast b.den_nz
  conv_rhs => rw [← Rat.num_div_den a, ← Rat.num_div_den b]
  push_cast
  field_simp

theorem qDiv_eq (a b : ℚ) (hb : b ≠ 0) : qDiv a b = a / b := by
  rw [qDiv, Rat.divInt_eq_div]
  have hda : ((a.den : ℤ) : ℚ) ≠ 0 := by exact_mod_cast a.den_nz
  have hdb : ((b.den : ℤ) : ℚ) ≠ 0 := by exact_mod_cast b.den_nz
  have hbn : ((b.num : ℤ) : ℚ) ≠ 0 := by exact_mod_cast Rat.num_ne_zero.2 hb
  conv_rhs => rw [← Rat.num_div_den a, ← Rat.num_div_den b]
  push_cast
  field_simp

theorem pow10_eq (n : ℕ) : pow10 n = (10 : ℚ) ^ n := by
  rw [pow10]; push_cast; ring

/-- Model of a JavaScript number: NaN, the two infinities, or a finite
value (modelled exactly as a rational; IEEE rounding is not modelled). -/
inductive JsNum where
  | nan : JsNum
  | inf : JsNum
  | ninf : JsNum
  | num : ℚ → JsNum
deriving DecidableEq, Repr

/-- Number.isFinite. -/
def JsNum.isFinite : JsNum → Bool
  | .num _ => true
  | _ => false

/-- Truthiness of a JavaScript number: 0 and NaN are falsy. -/
def jsTruthyN : JsNum → Bool
  | .nan => false
  | .num q => decide (q ≠ 0)
  | _ => true

/-- The JavaScript comparison a > b (false whenever NaN is involved). -/
def jsGt : JsNum → JsNum → Bool
  | .nan, _ => false
  | _, .nan => false
  | .inf, .inf => false
  | .inf, _ => true
  | .ninf, _ => false
  | .num _, .inf => false
  | .num _, .ninf => true
  | .num a, .num b => decide (b < a)

/-- The JavaScript comparison x <= 0 (false for NaN and +Infinity). -/
def jsLeZero : JsNum → Bool
  | .num q => decide (q ≤ 0)
  | .ninf => true
  | _ => false

/-- The JavaScript comparison x > 0. -/
def jsGtZero (x : JsNum) : Bool := jsGt x (.num 0)

/-- JavaScript addition. -/
def jsAdd : JsNum → JsNum → JsNum
  | .nan, _ => .nan
  | _, .nan => .nan
  | .inf, .ninf => .nan
  | .ninf, .inf => .nan
  | .inf, _ => .inf
  | _, .inf => .inf
  | .ninf, _ => .ninf
  | _, .ninf => .ninf
  | .num a, .num b => .num (qAdd a b)

/-- JavaScript subtraction. -/
def jsSub : JsNum → JsNum → JsNum
  | .nan, _ => .nan
  | _, .nan => .nan
  | .inf, .inf => .nan
  | .ninf, .ninf => .nan
  | .inf, _ => .inf
  | .ninf, _ => .ninf
  | .num _, .inf => .ninf
  | .num _, .ninf => .inf
  | .num a, .num b => .num (qAdd a (-b))

/-- JavaScript multiplication. -/
def jsMul : JsNum → JsNum → JsNum
  | .nan, _ => .nan
  | _, .nan => .nan
  | .inf, .inf => .inf
  | .inf, .ninf => .ninf
  | .ninf, .inf => .ninf
  | .ninf, .ninf => .inf
  | .inf, .num q => if q = 0 then .nan else if 0 < q then .inf else .ninf
  | .num q, .inf => if q = 0 then .nan else if 0 < q then .inf else .ninf
  | .ninf, .num q => if q = 0 then .nan else if 0 < q then .ninf else .inf
  | .num q, .ninf => if q = 0 then .nan else if 0 < q then .ninf else .inf
  | .num a, .num b => .num (qMul a b)

/-- JavaScript division (the sign of zero is not modelled: division of a
nonzero finite value by zero yields the infinity matching the sign of the
dividend, as with a positive zero divisor). -/
def jsDiv : JsNum → JsNum → JsNum
  | .nan, _ => .nan
  | _, .nan => .nan
  | .inf, .inf => .nan
  | .inf, .ninf => .nan
  | .ninf, .inf => .nan
  | .ninf, .ninf => .nan
  | .inf, .num q => if 0 ≤ q then .inf else .ninf
  | .ninf, .num q => if 0 ≤ q then .ninf else .inf
  | .num _, .inf => .num 0
  | .num _, .ninf => .num 0
  | .num a, .num b =>
    if b = 0 then (if a = 0 then .nan else if 0 < a then .inf else .ninf)
    else .num (qDiv a b)

/-- Math.max(0, x): NaN propagates, negative values clamp to 0. -/
def jsMax0 : JsNum → JsNum
  | .nan => .nan
  | .inf => .inf
  | .ninf => .num 0
  | .num q => .num (max 0 q)

/-- Math.round: round half toward positive infinity; NaN and the
infinities pass through. -/
def jsRound : JsNum → JsNum
  | .num q => .num ((⌊qAdd q (mkRat 1 2)⌋ : ℤ) : ℚ)
  | x => x

/-- The finite value of a JavaScript number, 0 for NaN and infinities
(a projection used to state arithmetic facts, not part of the source). -/
def ratOf : JsNum → ℚ
  | .num q => q
  | _ => 0

theorem jsAdd_num (a b : ℚ) : jsAdd (.num a) (.num b) = .num (a + b) := by
  rw [jsAdd, qAdd_eq]

theorem jsSub_num (a b : ℚ) : jsSub (.num a) (.num b) = .num (a - b) := by
  rw [jsSub, qAdd_eq]; ring_nf

theorem jsMul_num (a b : ℚ) : jsMul (.num a) (.num b) = .num (a * b) := by
  rw [jsMul, qMul_eq]

theorem jsDiv_num (a b : ℚ) (hb : b ≠ 0) :
    jsDiv (.num a) (.num b) = .num (a / b) := by
  rw [jsDiv, if_neg hb, qDiv_eq a b hb]

theorem jsRound_num (q : ℚ) : jsRound (.num q) = .num ((⌊q + 1/2⌋ : ℤ) : ℚ) := by
  have h : mkRat 1 2 = (1 / 2 : ℚ) := by norm_num [Rat.mkRat_eq_div]
  rw [jsRound, qAdd_eq, h]

/-- Whitespace accepted by JavaScript string trimming and Number():
the common ASCII whitespace plus NBSP (exotic Unicode space code points
are omitted from the model). -/
def isJsWs (c : Char) : Bool :=
  c = ' ' || c = '\t' || c = '\n' || c = '\r' || c = '\u000B' ||
  c = '\u000C' || c = ' '

/-- Trim leading and trailing JavaScript whitespace from a character list. -/
def jsTrimChars (cs : List Char) : List Char :=
  ((cs.dropWhile isJsWs).reverse.dropWhile isJsWs).reverse

/-- Model of String.prototype.trim, on the whitespace set of isJsWs. -/
def jsTrim (s : String) : String := String.mk (jsTrimChars s.data)

/-- Decimal digit test. -/
def isDig (c : Char) : Bool := '0' ≤ c && c ≤ '9'

/-- Value of one decimal digit. -/
def digVal (c : Char) : ℕ := c.toNat - 48

/-- Value of a list of decimal digits. -/
def digitsVal (ds : List Char) : ℕ := ds.foldl (fun a c => a * 10 + digVal c) 0

/-- Parse an optionally signed nonempty digit string (the exponent part
of a numeric literal). -/
def parseSignedDigits (cs : List Char) : Option ℤ :=
  match cs with
  | '+' :: ds => if ds ≠ [] && ds.all isDig then some (digitsVal ds) else none
  | '-' :: ds => if ds ≠ [] && ds.all isDig then some (-(digitsVal ds : ℤ)) else none
  | ds => if ds ≠ [] && ds.all isDig then some (digitsVal ds) else none

/-- Parse the exponent suffix of a numeric literal; an empty rest means
exponent 0. -/
def parseExpSuffix (cs : List Char) : Option ℤ :=
  match cs with
  | [] => some 0
  | 'e' :: rest => parseSignedDigits rest
  | 'E' :: rest => parseSignedDigits rest
  | _ => none

/-- Scale a rational by a signed power of ten. -/
def applyExp (q : ℚ) (e : ℤ) : ℚ :=
  if 0 ≤ e then qMul q (pow10 e.toNat) else qDiv q (pow10 (-e).toNat)

/-- Parse an unsigned decimal literal (digits, optional fraction,
optional exponent), as accepted by the JavaScript Number() conversion. -/
def parseUnsignedDec (cs : List Char) : Option ℚ :=
  let p1 := cs.span isDig
  match p1.2 with
  | '.' :: r2 =>
    let p2 := r2.span isDig
    if p1.1.isEmpty && p2.1.isEmpty then none
    else
      match parseExpSuffix p2.2 with
      | some e =>
        some (applyExp (qAdd (digitsVal p1.1 : ℚ)
          (qDiv (digitsVal p2.1 : ℚ) (pow10 p2.1.length))) e)
      | none => none
  | rest =>
    if p1.1.isEmpty then none
    else
      match parseExpSuffix rest with
      | some e => some (applyExp (digitsVal p1.1 : ℚ) e)
      | none => none

/-- Parse an unsigned decimal literal or the keyword Infinity. -/
def parseDecOrInf (cs : List Char) : Option JsNum :=
  if cs = "Infinity".data then some .inf
  else (parseUnsignedDec cs).map .num

/-- Hexadecimal digit value. -/
def hexVal (c : Char) : Option ℕ :=
  if isDig c then some (digVal c)
  else if 'a' ≤ c && c ≤ 'f' then some (c.toNat - 87)
  else if 'A' ≤ c && c ≤ 'F' then some (c.toNat - 55)
  else none

/-- Value of a digit list in a given radix, none if a digit is out of
range for the radix. -/
def radixVal (base : ℕ) (ds : List Char) : Option ℕ :=
  ds.foldl (fun acc c =>
    match acc, hexVal c with
    | some a, some v => if v < base then some (a * base + v) else none
    | _, _ => none) (some 0)

/-- Parse a 0x / 0o / 0b literal body (no sign allowed in JavaScript). -/
def parseRadixBody (base : ℕ) (ds : List Char) : JsNum :=
  match ds, radixVal base ds with
  | _ :: _, some v => .num v
  | _, _ => .nan

/-- The JavaScript Number() conversion applied to a string: trim, empty
means 0, otherwise a signed decimal literal, Infinity, or an unsigned
radix literal; anything else is NaN. -/
def jsNumberOfString (s : String) : JsNum :=
  match jsTrimChars s.data with
  | [] => .num 0
  | '+' :: rest =>
    (match parseDecOrInf rest with
     | some v => v
     | none => .nan)
  | '-' :: rest =>
    (match parseDecOrInf rest with
     | some (.num q) => .num (-q)
     | some .inf => .ninf
     | _ => .nan)
  | '0' :: 'x' :: ds => parseRadixBody 16 ds
  | '0' :: 'X' :: ds => parseRadixBody 16 ds
  | '0' :: 'o' :: ds => parseRadixBody 8 ds
  | '0' :: 'O' :: ds => parseRadixBody 8 ds
  | '0' :: 'b' :: ds => parseRadixBody 2 ds
  | '0' :: 'B' :: ds => parseRadixBody 2 ds
  | cs =>
    (match parseDecOrInf cs with
     | some v => v
     | none => .nan)

example : jsNumberOfString "3000000" = .num 3000000 := by decide
example : jsNumberOfString "" = .num 0 := by decide
example : jsNumberOfString "abc" = .nan := by decide
example : jsNumberOfString "Infinity" = .inf := by decide
example : jsNumberOfString "-50" = .num (-50) := by decide
example : jsNumberOfString "1.5e2" = .num 150 := by decide
example : jsNumberOfString " 12 " = .num 12 := by decide
example : jsNumberOfString "0x1F" = .num 31 := by decide
example : jsRound (jsNumberOfString "2.5") = .num 3 := by decide

/-- JSON value, the possible results of JSON.parse (no NaN, no
undefined; object field lists come from the parser, which keeps at most
one binding per key). -/
inductive JVal where
  | null : JVal
  | bool : Bool → JVal
  | num : ℚ → JVal
  | str : String → JVal
  | arr : List JVal → JVal
  | obj : List (String × JVal) → JVal

def JVal.isNull : JVal → Bool
  | .null => true
  | _ => false

def JVal.isStr : JVal → Bool
  | .str _ => true
  | _ => false

/-- JavaScript truthiness of a JSON value. -/
def jsTruthy : JVal → Bool
  | .null => false
  | .bool b => b
  | .num q => decide (q ≠ 0)
  | .str s => decide (s ≠ "")
  | .arr _ => true
  | .obj _ => true

/-- Property access v[k], undefined (none) when the property is absent
or the value is not an object. A later duplicate key wins, as in
JSON.parse. Access on null throws in JavaScript; every call site below
guards against null before reading a property, so this total model never
hides that throw. -/
def getField (v : JVal) (k : String) : Option JVal :=
  match v with
  | .obj fs => fs.foldl (fun acc kv => if kv.1 = k then some kv.2 else acc) none
  | _ => none

/-- Decimal rendering of an integer. -/
def intDec (n : ℤ) : String :=
  if n < 0 then "-" ++ Nat.repr (-n).toNat else Nat.repr n.toNat

/-- Fraction digits of a rational in [0,1), at most fuel places (exact
for terminating decimals of that length; JavaScript float formatting of
other values is approximated). -/
def fracDigitsAux : ℕ → ℚ → List Char
  | 0, _ => []
  | fuel+1, q =>
    if q = 0 then []
    else
      let q10 := qMul q 10
      let d := ⌊q10⌋
      Char.ofNat (48 + d.toNat) :: fracDigitsAux fuel (qAdd q10 (-(d : ℚ)))

/-- Decimal rendering of a nonnegative rational. -/
def ratToJsStringNonneg (q : ℚ) : String :=
  let ip := ⌊q⌋
  let frac := qAdd q (-(ip : ℚ))
  if frac = 0 then Nat.repr ip.toNat
  else Nat.repr ip.toNat ++ "." ++ String.mk (fracDigitsAux 20 frac)

/-- The JavaScript number-to-string conversion (exact for integers and
terminating decimals up to 20 places; the exponent forms used for very
large or small doubles are not modelled). -/
def ratToJsString (q : ℚ) : String :=
  if q < 0 then "-" ++ ratToJsStringNonneg (-q) else ratToJsStringNonneg q

/-- The JavaScript String() conversion of a JSON value. Arrays join
their elements with commas (null elements become empty), objects render
as the usual opaque tag. -/
def jsToString : JVal → String
  | .null => "null"
  | .bool true => "true"
  | .bool false => "false"
  | .num q => ratToJsString q
  | .str s => s
  | .arr xs => joinElems xs
  | .obj _ => "[object Object]"
where
  joinElems : List JVal → String
  | [] => ""
  | [x] => (match x with | .null => "" | v => jsToString v)
  | x :: xs => (match x with | .null => "" | v => jsToString v) ++ "," ++ joinElems xs

/-- The JavaScript Number() conversion of a JSON value: null is 0,
booleans are 0/1, numbers pass through, everything else converts via its
string form. -/
def jsNumberOfJVal : JVal → JsNum
  | .null => .num 0
  | .bool true => .num 1
  | .bool false => .num 0
  | .num q => .num q
  | .str s => jsNumberOfString s
  | .arr xs => jsNumberOfString (jsToString (.arr xs))
  | .obj fs => jsNumberOfString (jsToString (.obj fs))

/-- SameValueZero on the values a JavaScript Set compares: primitives by
value. Arrays and objects compare by reference; every such value that
reaches the one Set in this program is a distinct node of a single
JSON.parse result, so distinct references are modelled as never equal. -/
def jvalSameValue : JVal → JVal → Bool
  | .null, .null => true
  | .bool a, .bool b => a = b
  | .num a, .num b => a = b
  | .str a, .str b => a = b
  | _, _ => false

/-- Array.from(new Set(xs)): keep the first occurrence of each value, in
insertion order. -/
def dedupJs (xs : List JVal) : List JVal :=
  xs.foldl (fun acc v => if acc.any (fun w => jvalSameValue w v) then acc else acc ++ [v]) []

/-- The strict comparison v !== s for a string s (true only when v is
that very string), as used by the delete handler on record ids. -/
def strictEqStr (v : JVal) (s : String) : Bool :=
  match v with
  | .str t => t = s
  | _ => false

/-- An income row as built by the handlers: id, date, desc and notes
hold whatever JavaScript value was assigned (always a string on the add
path, arbitrary imported values on the import path); amount always
passes through Number/Math so it is a JavaScript number. -/
structure IncomeRow where
  id : JVal
  date : JVal
  desc : JVal
  amount : JsNum
  notes : JVal

/-- An expense row; as IncomeRow plus the category field. -/
structure ExpenseRow where
  id : JVal
  date : JVal
  category : JVal
  desc : JVal
  amount : JsNum
  notes : JVal

/-- The three collections owned by the page (income, expenses,
categories states). Categories hold JavaScript values: the import path
can union non-string values into the set, though every reachable path in
the claims below uses strings. -/
structure AppState where
  income : List IncomeRow
  expenses : List ExpenseRow
  categories : List JVal

/-- The eight seeded category names (DEFAULT_CATEGORIES in the source). -/
def DEFAULT_CATEGORIES : List String :=
  ["Room and Utility", "Daily Expense", "Borrow Others", "Food & Drinks",
   "Transportation", "Entertainment", "Shopping", "Other"]

/-- The default category set as stored in the categories state. -/
def defaultCategoryVals : List JVal := DEFAULT_CATEGORIES.map JVal.str

/-- RATE_MAX_AGE_MS from the source: twelve hours in milliseconds. -/
def RATE_MAX_AGE_MS : ℚ := 43200000

/-- The built-in default exchange rate, useState(1388). -/
def defaultRate : JsNum := .num 1388

/-- krwToUsd from the source: normalize the rate (Number of a number is
the identity), return 0 unless it is finite and positive, otherwise
divide. -/
def krwToUsd (krw : JsNum) (rate : JsNum) : JsNum :=
  let normalizedRate := rate
  if !normalizedRate.isFinite || jsLeZero normalizedRate then .num 0
  else jsDiv krw normalizedRate

/-- The rate load effect: saved is the stored string (none when the key
is absent). An absent or empty string returns early; a parsed value that
is not finite and positive returns early; otherwise it is adopted. -/
def loadRate (cur : JsNum) (saved : Option String) : JsNum :=
  match saved with
  | none => cur
  | some s =>
    if s = "" then cur
    else
      let parsed := jsNumberOfString s
      if !parsed.isFinite || jsLeZero parsed then cur
      else parsed

/-- refreshRate from the source. fetched models Number(data.rates.USD)
of a successful response body; none models every earlier failure
(network error, non-ok status, JSON parse error), which is caught and
leaves the rate untouched. A non-finite or non-positive USD-per-KRW
value throws and is likewise caught; otherwise the inverted KRW-per-USD
rate is adopted. -/
def refreshRate (cur : JsNum) (fetched : Option JsNum) : JsNum :=
  match fetched with
  | none => cur
  | some usdPerKrw =>
    if !usdPerKrw.isFinite || jsLeZero usdPerKrw then cur
    else jsDiv (.num 1) usdPerKrw

/-- Number(localStorage.getItem(key)): an absent item is null, and
Number(null) is 0; a present item converts as a string. -/
def numberOfStorageItem : Option String → JsNum
  | none => .num 0
  | some s => jsNumberOfString s

/-- The staleness test of the rate refresh effect: refresh when the
stored timestamp is not a finite number or when now minus the timestamp
exceeds the maximum age. -/
def shouldRefresh (now : ℚ) (stored : Option String) (maxAge : ℚ) : Bool :=
  let lastFetched := numberOfStorageItem stored
  !lastFetched.isFinite || jsGt (jsSub (.num now) lastFetched) (.num maxAge)

/-- The income form state (all inputs are strings). -/
structure IncomeForm where
  date : String
  desc : String
  amount : String
  notes : String

/-- The expense form state. -/
structure ExpenseForm where
  date : String
  category : String
  desc : String
  amount : String
  notes : String

/-- onAddIncome from the source: trim date and desc, round the converted
amount, validate, and append a fresh row on success. The returned flag
is true exactly on the success path (the one that fires the success
toast); fresh stands for the uid() draw. -/
def onAddIncome (st : AppState) (f : IncomeForm) (fresh : String) : AppState × Bool :=
  let date := jsTrim f.date
  let desc := jsTrim f.desc
  let amount := jsRound (jsNumberOfString f.amount)
  let ok := decide (date ≠ "") && decide (desc ≠ "") && jsGtZero amount
  if ok then
    ({ st with income := st.income ++
        [⟨.str fresh, .str date, .str desc, amount, .str (jsTrim f.notes)⟩] }, true)
  else (st, false)

/-- onAddExpense from the source: as onAddIncome plus a trimmed
non-empty category; membership of the category in the category set is
not checked by the handler. -/
def onAddExpense (st : AppState) (f : ExpenseForm) (fresh : String) : AppState × Bool :=
  let date := jsTrim f.date
  let category := jsTrim f.category
  let desc := jsTrim f.desc
  let amount := jsRound (jsNumberOfString f.amount)
  let ok := decide (date ≠ "") && decide (category ≠ "") && decide (desc ≠ "") &&
    jsGtZero amount
  if ok then
    ({ st with expenses := st.expenses ++
        [⟨.str fresh, .str date, .str category, .str desc, amount,
          .str (jsTrim f.notes)⟩] }, true)
  else (st, false)

/-- Walk the category list looking for a case-insensitive duplicate of
name: some true when a duplicate string is found first, some false when
the walk completes, none when a non-string category is reached (its
toLowerCase call throws a TypeError in JavaScript). ASCII lowering
models toLowerCase. -/
def findDupCategory (cats : List JVal) (lowName : String) : Option Bool :=
  match cats with
  | [] => some false
  | .str c :: rest =>
    if c.toLower = lowName then some true
    else findDupCategory rest lowName
  | _ :: _ => none

/-- onAddCategory from the source: prompt for a name (none models a
cancelled prompt), trim it, reject empty names and case-insensitive
duplicates, otherwise append. A thrown TypeError (non-string category in
the walk) aborts with no mutation, like every failure. -/
def onAddCategory (st : AppState) (promptResult : Option String) : AppState :=
  match promptResult with
  | none => st
  | some raw =>
    let name := jsTrim raw
    if name = "" then st
    else
      match findDupCategory st.categories name.toLower with
      | some false => { st with categories := st.categories ++ [.str name] }
      | _ => st

/-- onDelete from the source: after confirmation, keep the rows whose id
is not strictly equal to the given id string. -/
def onDelete (st : AppState) (id : String) (isIncome : Bool) (confirm : Bool) : AppState :=
  if !confirm then st
  else if isIncome then
    { st with income := st.income.filter (fun r => !strictEqStr r.id id) }
  else
    { st with expenses := st.expenses.filter (fun r => !strictEqStr r.id id) }

/-- Number(r.amount || 0), the per-row contribution to the totals. -/
def amountNum (a : JsNum) : JsNum := if jsTruthyN a then a else .num 0

/-- Total income in KRW (the reduce in the totals memo). -/
def incomeTotalKRW (rows : List IncomeRow) : JsNum :=
  rows.foldl (fun s r => jsAdd s (amountNum r.amount)) (.num 0)

/-- Total expenses in KRW. -/
def expenseTotalKRW (rows : List ExpenseRow) : JsNum :=
  rows.foldl (fun s r => jsAdd s (amountNum r.amount)) (.num 0)

/-- The byCat accumulation of the breakdown memo, restricted to one
property key. Property keys are strings, so the expense category is
coerced with String(); the stored entry re-reads as (byCat[k] || 0),
which the truthiness test models (an absent entry is undefined, and
undefined || 0 is the same 0 as the initial accumulator here). -/
def byCatAmt (exps : List ExpenseRow) (key : String) : JsNum :=
  exps.foldl (fun acc e =>
    if jsToString e.category = key then
      jsAdd (if jsTruthyN acc then acc else .num 0) (amountNum e.amount)
    else acc) (.num 0)

/-- The amount shown in the breakdown table for one category of the
category set: breakdown[cat] || 0. -/
def breakdownAmt (exps : List ExpenseRow) (cat : JVal) : JsNum :=
  let a := byCatAmt exps (jsToString cat)
  if jsTruthyN a then a else .num 0

/-- The percentage shown in the breakdown table for one category:
(amt / (totals.expenseKRW || 1)) * 100. -/
def breakdownPct (exps : List ExpenseRow) (cat : JVal) : JsNum :=
  jsMul (jsDiv (breakdownAmt exps cat)
    (let t := expenseTotalKRW exps; if jsTruthyN t then t else .num 1)) (.num 100)

/-- The JavaScript expression v || d for an optionally absent field
value (an absent property is undefined, which is falsy). -/
def jsOrField (v : Option JVal) (d : JVal) : JVal :=
  match v with
  | some x => if jsTruthy x then x else d
  | none => d

/-- The per-entry repair of an imported income entry (line 282 of the
source): id falls back to a fresh uid, date and desc to the empty
string, the amount is Math.max(0, Number(n.amount || 0)), notes to the
empty string. -/
def importIncomeEntry (fresh : String) (n : JVal) : IncomeRow :=
  { id := jsOrField (getField n "id") (.str fresh)
    date := jsOrField (getField n "date") (.str "")
    desc := jsOrField (getField n "desc") (.str "")
    amount := jsMax0 (jsNumberOfJVal (jsOrField (getField n "amount") (.num 0)))
    notes := jsOrField (getField n "notes") (.str "") }

/-- The per-entry repair of an imported expense entry (line 283): as for
income plus category falling back to the string Other. -/
def importExpenseEntry (fresh : String) (n : JVal) : ExpenseRow :=
  { id := jsOrField (getField n "id") (.str fresh)
    date := jsOrField (getField n "date") (.str "")
    category := jsOrField (getField n "category") (.str "Other")
    desc := jsOrField (getField n "desc") (.str "")
    amount := jsMax0 (jsNumberOfJVal (jsOrField (getField n "amount") (.num 0)))
    notes := jsOrField (getField n "notes") (.str "") }

/-- Array.prototype.map with the element index, the index supply for the
uid draws of the import (one potential draw per entry). -/
def mapWithIndex (f : ℕ → α → β) : ℕ → List α → List β
  | _, [] => []
  | i, a :: as => f i a :: mapWithIndex f (i + 1) as

/-- Array.isArray of a possibly undefined value. -/
def isArrOpt : Option JVal → Bool
  | some (.arr _) => true
  | _ => false

/-- Outcome of the import handler: the parse threw; the structure check
threw (income or expenses missing or not arrays, or a falsy document);
the user declined the confirmation; a null entry threw a TypeError on
property access; or the three replacement collections. -/
inductive ImportOutcome where
  | parseFailure : ImportOutcome
  | malformedStructure : ImportOutcome
  | cancelled : ImportOutcome
  | entryError : ImportOutcome
  | success : List IncomeRow → List ExpenseRow → List JVal → ImportOutcome

/-- The imported category set (lines 284 to 285): the supplied category
array mapped through String() when it is a nonempty array, otherwise the
defaults; then the Set union with every imported expense category, in
insertion order. -/
def importCategories (doc : JVal) (exps : List ExpenseRow) : List JVal :=
  let cat : List JVal :=
    match getField doc "categories" with
    | some (.arr cs) =>
      if cs.length ≠ 0 then cs.map (fun c => .str (jsToString c))
      else defaultCategoryVals
    | _ => defaultCategoryVals
  dedupJs (cat ++ exps.map (fun e => e.category))

/-- onFilePicked (lines 269 to 292), as a function of the parsed file
content (none when JSON.parse throws), the confirmation answer, and the
two uid supplies. -/
def runImport (raw : Option JVal) (confirm : Bool)
    (freshI freshE : ℕ → String) : ImportOutcome :=
  match raw with
  | none => .parseFailure
  | some doc =>
    if !jsTruthy doc || !isArrOpt (getField doc "income") ||
        !isArrOpt (getField doc "expenses") then .malformedStructure
    else if !confirm then .cancelled
    else
      match getField doc "income", getField doc "expenses" with
      | some (.arr incs), some (.arr exps) =>
        if incs.any JVal.isNull then .entryError
        else
          let inc := mapWithIndex (fun i n => importIncomeEntry (freshI i) n) 0 incs
          if exps.any JVal.isNull then .entryError
          else
            let exp := mapWithIndex (fun i n => importExpenseEntry (freshE i) n) 0 exps
            .success inc exp (importCategories doc exp)
      | _, _ => .malformedStructure

/-- The state after the import handler runs: only a successful outcome
replaces the collections (the three set calls happen together at line
285); every other outcome leaves the state untouched. -/
def onFilePicked (st : AppState) (raw : Option JVal) (confirm : Bool)
    (freshI freshE : ℕ → String) : AppState :=
  match runImport raw confirm freshI freshE with
  | .success inc exps cats => { income := inc, expenses := exps, categories := cats }
  | _ => st

/-- JSON.stringify of a JavaScript number: NaN and the infinities
serialize as null. -/
def jsNumToJson : JsNum → JVal
  | .num q => .num q
  | _ => .null

/-- Serialization of an income row, with the key order of the row
literal in the source. -/
def incomeRowToJson (r : IncomeRow) : JVal :=
  .obj [("id", r.id), ("date", r.date), ("desc", r.desc),
        ("amount", jsNumToJson r.amount), ("notes", r.notes)]

/-- Serialization of an expense row. -/
def expenseRowToJson (r : ExpenseRow) : JVal :=
  .obj [("id", r.id), ("date", r.date), ("category", r.category),
        ("desc", r.desc), ("amount", jsNumToJson r.amount), ("notes", r.notes)]

/-- The export document built by exportJSON (line 255): version, rate,
export timestamp, and full copies of the three collections. The download
machinery is outside the model; parse after stringify is the identity on
this value. -/
def exportJSON (st : AppState) (rate : JsNum) (exportedAt : String) : JVal :=
  .obj [("version", .num 1), ("rate", jsNumToJson rate),
        ("exportedAt", .str exportedAt),
        ("income", .arr (st.income.map incomeRowToJson)),
        ("expenses", .arr (st.expenses.map expenseRowToJson)),
        ("categories", .arr st.categories)]

/-- A finite, strictly positive JavaScript number (the rate invariant). -/
def goodRate (r : JsNum) : Prop := ∃ q : ℚ, r = .num q ∧ 0 < q

theorem guard_passes_iff_good (r : JsNum) :
    (!r.isFinite || jsLeZero r) = false ↔ goodRate r := by
  cases r with
  | nan => simp [JsNum.isFinite, jsLeZero, goodRate]
  | inf => simp [JsNum.isFinite, jsLeZero, goodRate]
  | ninf => simp [JsNum.isFinite, jsLeZero, goodRate]
  | num q =>
    simp only [JsNum.isFinite, jsLeZero, Bool.not_true, Bool.false_or,
      decide_eq_false_iff_not, not_le, goodRate]
    constructor
    · intro h; exact ⟨q, rfl, h⟩
    · rintro ⟨q', hq', h⟩; cases hq'; exact h

/-- Claim C6: krwToUsd returns the guarded quotient: amount / rate when
the rate is a finite number strictly greater than 0, and exactly 0 for
every non-finite or non-positive rate, for every amount. -/
theorem c6_krwToUsd_guarded (krw rate : JsNum) :
    (∀ q : ℚ, rate = .num q → 0 < q → krwToUsd krw rate = jsDiv krw rate) ∧
    (rate.isFinite = false → krwToUsd krw rate = .num 0) ∧
    (∀ q : ℚ, rate = .num q → q ≤ 0 → krwToUsd krw rate = .num 0) := by
  refine ⟨?_, ?_, ?_⟩
  · intro q hq hpos
    subst hq
    have hg : (!(JsNum.num q).isFinite || jsLeZero (.num q)) = false := by
      exact guard_passes_iff_good _ |>.2 ⟨q, rfl, hpos⟩
    simp [krwToUsd, hg]
  · intro h
    cases rate with
    | num q => simp [JsNum.isFinite] at h
    | nan => simp [krwToUsd, JsNum.isFinite]
    | inf => simp [krwToUsd, JsNum.isFinite]
    | ninf => simp [krwToUsd, JsNum.isFinite]
  · intro q hq hle
    subst hq
    simp [krwToUsd, jsLeZero, hle]

theorem c6_witness :
    krwToUsd (.num 2776) (.num 1388) = jsDiv (.num 2776) (.num 1388) ∧
    krwToUsd (.num 2776) .nan = .num 0 ∧
    krwToUsd (.num 2776) (.num (-3)) = .num 0 :=
  ⟨(c6_krwToUsd_guarded (.num 2776) (.num 1388)).1 1388 rfl (by norm_num),
   (c6_krwToUsd_guarded (.num 2776) .nan).2.1 rfl,
   (c6_krwToUsd_guarded (.num 2776) (.num (-3))).2.2 (-3) rfl (by norm_num)⟩

/-- Claim C4 counterexample: with no timestamp on record the stored null
coerces to the number 0, so at now = 0 the staleness test is false, while
the claim asserts it is true whenever no timestamp is on record. -/
theorem c4_counterexample : shouldRefresh 0 none RATE_MAX_AGE_MS = false := by decide

/-- Claim C4 (amended): with maxAge fixed at 12 hours, shouldRefresh is
true when the stored timestamp is not a valid finite number; when a
finite timestamp t is stored it is true exactly when now - t exceeds
maxAge, hence false at the boundary minus one millisecond and true at
the boundary plus one; and when no timestamp is on record the absent
value coerces to 0, so it is true exactly when now exceeds maxAge
(rather than unconditionally). -/
theorem c4_shouldRefresh_amended :
    (∀ (now : ℚ) (s : String), (jsNumberOfString s).isFinite = false →
      shouldRefresh now (some s) RATE_MAX_AGE_MS = true) ∧
    (∀ (now t : ℚ) (s : String), jsNumberOfString s = .num t →
      (shouldRefresh now (some s) RATE_MAX_AGE_MS = true ↔ RATE_MAX_AGE_MS < now - t)) ∧
    (∀ now : ℚ, shouldRefresh now none RATE_MAX_AGE_MS = true ↔ RATE_MAX_AGE_MS < now) ∧
    (∀ (t : ℚ) (s : String), jsNumberOfString s = .num t →
      shouldRefresh (t + RATE_MAX_AGE_MS - 1) (some s) RATE_MAX_AGE_MS = false ∧
      shouldRefresh (t + RATE_MAX_AGE_MS + 1) (some s) RATE_MAX_AGE_MS = true) := by
  have hfin : ∀ (now t : ℚ) (s : String), jsNumberOfString s = .num t →
      (shouldRefresh now (some s) RATE_MAX_AGE_MS = true ↔ RATE_MAX_AGE_MS < now - t) := by
    intro now t s hs
    simp [shouldRefresh, numberOfStorageItem, hs, JsNum.isFinite, jsSub_num, jsGt]
  refine ⟨?_, hfin, ?_, ?_⟩
  · intro now s hs
    simp [shouldRefresh, numberOfStorageItem, hs]
  · intro now
    have h0 : jsSub (.num now) (.num 0) = .num (now - 0) := jsSub_num now 0
    simp [shouldRefresh, numberOfStorageItem, JsNum.isFinite, h0, jsGt]
  · intro t s hs
    constructor
    · rw [← Bool.not_eq_true]
      intro hb
      have := (hfin (t + RATE_MAX_AGE_MS - 1) t s hs).1 hb
      linarith
    · exact (hfin (t + RATE_MAX_AGE_MS + 1) t s hs).2 (by linarith)

theorem c4_witness :
    shouldRefresh 5 (some "abc") RATE_MAX_AGE_MS = true ∧
    (shouldRefresh 43200001 (some "0") RATE_MAX_AGE_MS = true ↔
      RATE_MAX_AGE_MS < 43200001 - 0) ∧
    shouldRefresh (0 + RATE_MAX_AGE_MS - 1) (some "0") RATE_MAX_AGE_MS = false :=
  ⟨c4_shouldRefresh_amended.1 5 "abc" (by decide),
   c4_shouldRefresh_amended.2.1 43200001 0 "0" (by decide),
   (c4_shouldRefresh_amended.2.2.2 0 "0" (by decide)).1⟩

/-- Claim C5: the in-memory rate is always finite and strictly positive:
it starts at 1388; a persisted value is adopted on load only when it
parses to a finite positive number, otherwise the current value is kept;
a refresh failure (none) or an invalid fetched USD-per-KRW value keeps
the current value; a valid fetched value is adopted as its inverse,
which is again finite and positive. -/
theorem c5_rate_invariant :
    (defaultRate = .num 1388 ∧ goodRate defaultRate) ∧
    (∀ cur saved, goodRate cur → goodRate (loadRate cur saved)) ∧
    (∀ cur s, ¬ goodRate (jsNumberOfString s) → loadRate cur (some s) = cur) ∧
    (∀ cur s q, jsNumberOfString s = .num q → 0 < q → loadRate cur (some s) = .num q) ∧
    (∀ cur, refreshRate cur none = cur) ∧
    (∀ cur u, ¬ goodRate u → refreshRate cur (some u) = cur) ∧
    (∀ cur u, goodRate u → refreshRate cur (some u) = jsDiv (.num 1) u ∧
      goodRate (refreshRate cur (some u))) := by
  have hdiv : ∀ q : ℚ, 0 < q → jsDiv (.num 1) (.num q) = .num (1 / q) := by
    intro q hq; exact jsDiv_num 1 q (ne_of_gt hq)
  refine ⟨⟨rfl, 1388, rfl, by norm_num⟩, ?_, ?_, ?_, fun cur => rfl, ?_, ?_⟩
  · intro cur saved hcur
    match saved with
    | none => exact hcur
    | some s =>
      by_cases hse : s = ""
      · simp [loadRate, hse]; exact hcur
      · rw [loadRate]
        simp only [hse, if_false]
        cases hg : (!(jsNumberOfString s).isFinite || jsLeZero (jsNumberOfString s)) with
        | true => simpa [hg] using hcur
        | false =>
          have := guard_passes_iff_good (jsNumberOfString s) |>.1 hg
          simpa [hg] using this
  · intro cur s hbad
    rw [loadRate]
    by_cases hse : s = ""
    · simp [hse]
    · simp only [hse, if_false]
      cases hg : (!(jsNumberOfString s).isFinite || jsLeZero (jsNumberOfString s)) with
      | true => simp [hg]
      | false => exact absurd (guard_passes_iff_good _ |>.1 hg) hbad
  · intro cur s q hs hq
    by_cases hse : s = ""
    · subst hse
      have h0 : jsNumberOfString "" = .num 0 := by decide
      rw [h0] at hs
      cases hs
      exact absurd hq (by norm_num)
    · have hg : (!(jsNumberOfString s).isFinite || jsLeZero (jsNumberOfString s)) = false :=
        guard_passes_iff_good _ |>.2 ⟨q, hs, hq⟩
      rw [loadRate]
      simp only [hse, if_false, hg, Bool.false_eq_true]
      exact hs
  · intro cur u hbad
    rw [refreshRate]
    cases hg : (!u.isFinite || jsLeZero u) with
    | true => simp [hg]
    | false => exact absurd (guard_passes_iff_good _ |>.1 hg) hbad
  · intro cur u hgood
    have hg : (!u.isFinite || jsLeZero u) = false := guard_passes_iff_good _ |>.2 hgood
    obtain ⟨q, hq, hpos⟩ := hgood
    subst hq
    refine ⟨by rw [refreshRate]; simp [hg], ?_⟩
    rw [refreshRate]
    simp only [hg, Bool.false_eq_true, if_false, hdiv q hpos]
    exact ⟨1 / q, rfl, by positivity⟩

theorem c5_witness :
    goodRate (loadRate (.num 1388) (some "abc")) ∧
    loadRate (.num 1388) (some "abc") = .num 1388 ∧
    refreshRate (.num 1388) none = .num 1388 ∧
    refreshRate (.num 1388) (some (.num (-2))) = .num 1388 ∧
    refreshRate (.num 1388) (some (.num (mkRat 1 1400))) =
      jsDiv (.num 1) (.num (mkRat 1 1400)) :=
  ⟨c5_rate_invariant.2.1 (.num 1388) (some "abc") ⟨1388, rfl, by norm_num⟩,
   c5_rate_invariant.2.2.1 (.num 1388) "abc" (by
     have h : jsNumberOfString "abc" = .nan := by decide
     rw [h]; rintro ⟨q, hq, _⟩; simp at hq),
   c5_rate_invariant.2.2.2.2.1 (.num 1388),
   c5_rate_invariant.2.2.2.2.2.1 (.num 1388) (.num (-2)) (by
     rintro ⟨q, hq, hpos⟩; cases hq; norm_num at hpos),
   (c5_rate_invariant.2.2.2.2.2.2 (.num 1388) (.num (mkRat 1 1400))
     ⟨mkRat 1 1400, rfl, by decide⟩).1⟩

/-- Claim C10: each single-collection mutation leaves the other
collections unchanged: adding or deleting an income record keeps the
expenses and categories; adding or deleting an expense keeps the income
and categories; adding a category keeps the income and expenses. -/
theorem c10_frame_effects :
    (∀ st f fresh, (onAddIncome st f fresh).1.expenses = st.expenses ∧
      (onAddIncome st f fresh).1.categories = st.categories) ∧
    (∀ st f fresh, (onAddExpense st f fresh).1.income = st.income ∧
      (onAddExpense st f fresh).1.categories = st.categories) ∧
    (∀ st id c, (onDelete st id true c).expenses = st.expenses ∧
      (onDelete st id true c).categories = st.categories) ∧
    (∀ st id c, (onDelete st id false c).income = st.income ∧
      (onDelete st id false c).categories = st.categories) ∧
    (∀ st p, (onAddCategory st p).income = st.income ∧
      (onAddCategory st p).expenses = st.expenses) := by
  refine ⟨?_, ?_, ?_, ?_, ?_⟩
  · intro st f fresh
    rw [onAddIncome]
    split <;> exact ⟨rfl, rfl⟩
  · intro st f fresh
    rw [onAddExpense]
    split <;> exact ⟨rfl, rfl⟩
  · intro st id c
    rw [onDelete]
    split
    · exact ⟨rfl, rfl⟩
    · exact ⟨rfl, rfl⟩
  · intro st id c
    rw [onDelete]
    split
    · exact ⟨rfl, rfl⟩
    · exact ⟨rfl, rfl⟩
  · intro st p
    cases p with
    | none => exact ⟨rfl, rfl⟩
    | some raw =>
      rw [onAddCategory]
      split
      · exact ⟨rfl, rfl⟩
      · split <;> exact ⟨rfl, rfl⟩

theorem jsGtZero_round_iff (x : JsNum) :
    jsGtZero (jsRound x) = true ↔
      ((∃ k : ℤ, 0 < k ∧ jsRound x = .num (k : ℚ)) ∨ x = .inf) := by
  cases x with
  | nan => simp [jsRound, jsGtZero, jsGt]
  | inf => simp [jsRound, jsGtZero, jsGt]
  | ninf => simp [jsRound, jsGtZero, jsGt]
  | num q =>
    rw [jsRound]
    simp only [jsGtZero, jsGt, decide_eq_true_eq, JsNum.num.injEq]
    constructor
    · intro h
      exact Or.inl ⟨⌊qAdd q (mkRat 1 2)⌋, by exact_mod_cast h, rfl⟩
    · rintro (⟨k, hk, hek⟩ | h)
      · rw [hek]
        exact_mod_cast hk
      · simp at h

theorem incomeTotal_append (rows : List IncomeRow) (r : IncomeRow) :
    incomeTotalKRW (rows ++ [r]) = jsAdd (incomeTotalKRW rows) (amountNum r.amount) := by
  rw [incomeTotalKRW, incomeTotalKRW, List.foldl_append]
  rfl

theorem amountNum_of_pos (a : JsNum) (h : jsGtZero a = true) : amountNum a = a := by
  cases a with
  | num q =>
    have hq : (0 : ℚ) < q := by simpa [jsGtZero, jsGt] using h
    simp [amountNum, jsTruthyN, ne_of_gt hq]
  | inf => simp [amountNum, jsTruthyN]
  | nan => simp [jsGtZero, jsGt] at h
  | ninf => simp [jsGtZero, jsGt] at h

/-- Claim C7 (amended): onAddIncome succeeds exactly when the trimmed
date and description are non-empty and the amount converts and rounds to
a strictly positive value, that is a strictly positive integer or (the
one non-integer case the validation also accepts) positive infinity from
the input string Infinity; on success exactly the one new row with the
rounded amount and the fresh identifier is appended, so the income total
grows by that amount; on failure the state is unchanged. -/
theorem c7_addIncome_amended (st : AppState) (f : IncomeForm) (fresh : String) :
    ((onAddIncome st f fresh).2 = true ↔
      (jsTrim f.date ≠ "" ∧ jsTrim f.desc ≠ "" ∧
        ((∃ k : ℤ, 0 < k ∧ jsRound (jsNumberOfString f.amount) = .num (k : ℚ)) ∨
          jsNumberOfString f.amount = .inf))) ∧
    ((onAddIncome st f fresh).2 = true →
      (onAddIncome st f fresh).1.income = st.income ++
        [⟨.str fresh, .str (jsTrim f.date), .str (jsTrim f.desc),
          jsRound (jsNumberOfString f.amount), .str (jsTrim f.notes)⟩] ∧
      incomeTotalKRW (onAddIncome st f fresh).1.income =
        jsAdd (incomeTotalKRW st.income) (jsRound (jsNumberOfString f.amount))) ∧
    ((onAddIncome st f fresh).2 = false → (onAddIncome st f fresh).1 = st) := by
  have hiff := jsGtZero_round_iff (jsNumberOfString f.amount)
  cases hok : (decide (jsTrim f.date ≠ "") && decide (jsTrim f.desc ≠ "") &&
      jsGtZero (jsRound (jsNumberOfString f.amount))) with
  | true =>
    have he : onAddIncome st f fresh = ({ st with income := st.income ++
        [⟨.str fresh, .str (jsTrim f.date), .str (jsTrim f.desc),
          jsRound (jsNumberOfString f.amount), .str (jsTrim f.notes)⟩] }, true) := by
      rw [onAddIncome]
      rw [hok]
      simp
    rw [he]
    simp only [Bool.and_eq_true, decide_eq_true_eq] at hok
    refine ⟨iff_of_true rfl ⟨hok.1.1, hok.1.2, hiff.1 hok.2⟩, fun _ => ⟨rfl, ?_⟩,
      fun hfa => by simp at hfa⟩
    rw [incomeTotal_append, amountNum_of_pos _ hok.2]
  | false =>
    have he : onAddIncome st f fresh = (st, false) := by
      rw [onAddIncome]
      rw [hok]
      simp
    rw [he]
    refine ⟨iff_of_false (by simp) ?_, fun htr => by simp at htr, fun _ => rfl⟩
    rintro ⟨h1, h2, h3⟩
    have : (decide (jsTrim f.date ≠ "") && decide (jsTrim f.desc ≠ "") &&
        jsGtZero (jsRound (jsNumberOfString f.amount))) = true := by
      simp only [Bool.and_eq_true, decide_eq_true_eq]
      exact ⟨⟨h1, h2⟩, hiff.2 h3⟩
    rw [hok] at this
    exact Bool.false_ne_true this

/-- Claim C7 counterexample: the claim requires success to force an
amount that rounds to a strictly positive integer, but the input string
Infinity converts to a non-finite amount and is accepted (the record is
appended with amount Infinity). -/
theorem c7_counterexample :
    (onAddIncome ⟨[], [], defaultCategoryVals⟩
      ⟨"2024-01-01", "Salary", "Infinity", ""⟩ "id1").2 = true ∧
    (jsRound (jsNumberOfString "Infinity")).isFinite = false ∧
    (onAddIncome ⟨[], [], defaultCategoryVals⟩
      ⟨"2024-01-01", "Salary", "Infinity", ""⟩ "id1").1.income.length = 1 := by
  refine ⟨by decide, by decide, by decide⟩

theorem c7_witness :
    ((onAddIncome ⟨[], [], defaultCategoryVals⟩
        ⟨"2024-01-01", "Salary", "3000000", ""⟩ "id1").1.income =
      [] ++ [⟨.str "id1", .str "2024-01-01", .str "Salary",
        jsRound (jsNumberOfString "3000000"), .str ""⟩]) ∧
    ((onAddIncome ⟨[], [], defaultCategoryVals⟩ ⟨"2024-01-01", "", "5", ""⟩ "id2").1 =
      (⟨[], [], defaultCategoryVals⟩ : AppState)) :=
  ⟨((c7_addIncome_amended ⟨[], [], defaultCategoryVals⟩
      ⟨"2024-01-01", "Salary", "3000000", ""⟩ "id1").2.1 (by decide)).1,
   (c7_addIncome_amended ⟨[], [], defaultCategoryVals⟩
      ⟨"2024-01-01", "", "5", ""⟩ "id2").2.2 (by decide)⟩

/-- Claim C9 counterexample: onAddExpense succeeds for a category that
is not a member of the category set (the handler checks only that the
trimmed category is non-empty; the select element is what constrains
choices in the browser), and the expense collection changes. -/
theorem c9_counterexample :
    (onAddExpense ⟨[], [], defaultCategoryVals⟩
      ⟨"2024-01-01", "NotACategory", "Lunch", "100", ""⟩ "e1").2 = true ∧
    defaultCategoryVals.all (fun c => !jvalSameValue c (.str "NotACategory")) = true ∧
    (onAddExpense ⟨[], [], defaultCategoryVals⟩
      ⟨"2024-01-01", "NotACategory", "Lunch", "100", ""⟩ "e1").1.expenses.length = 1 := by
  refine ⟨by decide, by decide, by decide⟩

/-- Claim C9 (amended): onAddExpense succeeds exactly when the trimmed
date, category and description are non-empty and the amount converts and
rounds to a strictly positive value; membership of the category in the
category set is not checked by the handler, so any non-empty category
string is accepted; on success exactly the one new row is appended and
on failure the state is unchanged. -/
theorem c9_addExpense_amended (st : AppState) (f : ExpenseForm) (fresh : String) :
    ((onAddExpense st f fresh).2 = true ↔
      (jsTrim f.date ≠ "" ∧ jsTrim f.category ≠ "" ∧ jsTrim f.desc ≠ "" ∧
        ((∃ k : ℤ, 0 < k ∧ jsRound (jsNumberOfString f.amount) = .num (k : ℚ)) ∨
          jsNumberOfString f.amount = .inf))) ∧
    ((onAddExpense st f fresh).2 = true →
      (onAddExpense st f fresh).1.expenses = st.expenses ++
        [⟨.str fresh, .str (jsTrim f.date), .str (jsTrim f.category),
          .str (jsTrim f.desc), jsRound (jsNumberOfString f.amount),
          .str (jsTrim f.notes)⟩]) ∧
    ((onAddExpense st f fresh).2 = false → (onAddExpense st f fresh).1 = st) := by
  have hiff := jsGtZero_round_iff (jsNumberOfString f.amount)
  cases hok : (decide (jsTrim f.date ≠ "") && decide (jsTrim f.category ≠ "") &&
      decide (jsTrim f.desc ≠ "") && jsGtZero (jsRound (jsNumberOfString f.amount))) with
  | true =>
    have he : onAddExpense st f fresh = ({ st with expenses := st.expenses ++
        [⟨.str fresh, .str (jsTrim f.date), .str (jsTrim f.category),
          .str (jsTrim f.desc), jsRound (jsNumberOfString f.amount),
          .str (jsTrim f.notes)⟩] }, true) := by
      rw [onAddExpense]
      rw [hok]
      simp
    rw [he]
    simp only [Bool.and_eq_true, decide_eq_true_eq] at hok
    exact ⟨iff_of_true rfl ⟨hok.1.1.1, hok.1.1.2, hok.1.2, hiff.1 hok.2⟩,
      fun _ => rfl, fun hfa => by simp at hfa⟩
  | false =>
    have he : onAddExpense st f fresh = (st, false) := by
      rw [onAddExpense]
      rw [hok]
      simp
    rw [he]
    refine ⟨iff_of_false (by simp) ?_, fun htr => by simp at htr, fun _ => rfl⟩
    rintro ⟨h1, h2, h3, h4⟩
    have : (decide (jsTrim f.date ≠ "") && decide (jsTrim f.category ≠ "") &&
        decide (jsTrim f.desc ≠ "") &&
        jsGtZero (jsRound (jsNumberOfString f.amount))) = true := by
      simp only [Bool.and_eq_true, decide_eq_true_eq]
      exact ⟨⟨⟨h1, h2⟩, h3⟩, hiff.2 h4⟩
    rw [hok] at this
    exact Bool.false_ne_true this

theorem c9_witness :
    ((onAddExpense ⟨[], [], defaultCategoryVals⟩
        ⟨"2024-01-01", "Other", "Groceries", "35000", ""⟩ "e9").1.expenses =
      [] ++ [⟨.str "e9", .str "2024-01-01", .str "Other", .str "Groceries",
        jsRound (jsNumberOfString "35000"), .str ""⟩]) ∧
    ((onAddExpense ⟨[], [], defaultCategoryVals⟩
        ⟨"2024-01-01", "", "Groceries", "35000", ""⟩ "e9").1 =
      (⟨[], [], defaultCategoryVals⟩ : AppState)) :=
  ⟨(c9_addExpense_amended ⟨[], [], defaultCategoryVals⟩
      ⟨"2024-01-01", "Other", "Groceries", "35000", ""⟩ "e9").2.1 (by decide),
   (c9_addExpense_amended ⟨[], [], defaultCategoryVals⟩
      ⟨"2024-01-01", "", "Groceries", "35000", ""⟩ "e9").2.2 (by decide)⟩

/-- Claim C2: when the input is unparseable (none) the import reports a
parse failure, and when the top-level income or expenses field is not
present as an array it reports a malformed structure; in both cases the
income, expense and category collections are left completely unchanged. -/
theorem c2_import_failure_preserves_state (st : AppState) (raw : Option JVal)
    (confirm : Bool) (fI fE : ℕ → String) :
    (raw = none → onFilePicked st raw confirm fI fE = st ∧
      runImport raw confirm fI fE = .parseFailure) ∧
    (∀ doc, raw = some doc →
      (isArrOpt (getField doc "income") = false ∨
        isArrOpt (getField doc "expenses") = false) →
      onFilePicked st raw confirm fI fE = st ∧
      runImport raw confirm fI fE = .malformedStructure) := by
  refine ⟨?_, ?_⟩
  · rintro rfl
    exact ⟨rfl, rfl⟩
  · rintro doc rfl hbad
    have hg : (!jsTruthy doc || !isArrOpt (getField doc "income") ||
        !isArrOpt (getField doc "expenses")) = true := by
      rcases hbad with h | h <;> simp [h]
    have hr : runImport (some doc) confirm fI fE = .malformedStructure := by
      simp only [runImport]
      rw [hg]
      simp
    refine ⟨?_, hr⟩
    rw [onFilePicked, hr]

theorem c2_witness :
    onFilePicked ⟨[], [], defaultCategoryVals⟩ (some (.obj [("income", .arr [])]))
      true (fun _ => "a") (fun _ => "a") = ⟨[], [], defaultCategoryVals⟩ ∧
    runImport (some (.obj [("income", .arr [])])) true (fun _ => "a") (fun _ => "a") =
      .malformedStructure ∧
    runImport none true (fun _ => "a") (fun _ => "a") = .parseFailure :=
  ⟨((c2_import_failure_preserves_state ⟨[], [], defaultCategoryVals⟩
      (some (.obj [("income", .arr [])])) true (fun _ => "a") (fun _ => "a")).2
      (.obj [("income", .arr [])]) rfl (Or.inr (by decide))).1,
   ((c2_import_failure_preserves_state ⟨[], [], defaultCategoryVals⟩
      (some (.obj [("income", .arr [])])) true (fun _ => "a") (fun _ => "a")).2
      (.obj [("income", .arr [])]) rfl (Or.inr (by decide))).2,
   ((c2_import_failure_preserves_state ⟨[], [], defaultCategoryVals⟩
      none true (fun _ => "a") (fun _ => "a")).1 rfl).2⟩

/-- The round-trip example of the claim: one income entry with a
negative amount, empty expense and category arrays. -/
def c1ExampleDoc : JVal :=
  .obj [("income", .arr [.obj [("date", .str "2024-01-01"), ("desc", .str "X"),
    ("amount", .num (-50))]]), ("expenses", .arr []), ("categories", .arr [])]

/-- Claim C1 counterexample: a present non-numeric amount does not map
to 0 as the claim states; Number of the string abc is NaN and
Math.max(0, NaN) is NaN, so the repaired record carries amount NaN. -/
theorem c1_counterexample :
    (importIncomeEntry "g" (.obj [("amount", .str "abc")])).amount = .nan ∧
    (importIncomeEntry "g" (.obj [("amount", .str "abc")])).amount ≠ .num 0 ∧
    runImport (some (.obj [("income", .arr [.obj [("amount", .str "abc")]]),
        ("expenses", .arr [])])) true (fun _ => "g") (fun _ => "g") =
      .success [importIncomeEntry "g" (.obj [("amount", .str "abc")])] []
        defaultCategoryVals :=
  ⟨by decide, by decide, rfl⟩

/-- Claim C1 (amended): on a structurally valid confirmed import, every
income and expense entry that is an object (a null entry would make the
property access throw and abort the import) is individually repaired: a
missing identifier is replaced by the freshly generated one, a missing
date or description becomes the empty string, a missing expense category
becomes Other, and the amount is coerced by Math.max(0, Number(amount
or 0)): a missing amount or a negative number becomes 0 and a finite
number q becomes max 0 q, while a present truthy non-numeric amount
yields NaN rather than 0; the concrete example with amount -50 and empty
expense and category arrays yields one income record with amount 0 and
the default category set. -/
theorem c1_import_repair_amended :
    (∀ (fresh : String) (n : JVal), n.isNull = false →
      (getField n "id" = none → (importIncomeEntry fresh n).id = .str fresh) ∧
      (getField n "date" = none → (importIncomeEntry fresh n).date = .str "") ∧
      (getField n "desc" = none → (importIncomeEntry fresh n).desc = .str "") ∧
      (getField n "notes" = none → (importIncomeEntry fresh n).notes = .str "") ∧
      (getField n "amount" = none → (importIncomeEntry fresh n).amount = .num 0) ∧
      (∀ q : ℚ, getField n "amount" = some (.num q) →
        (importIncomeEntry fresh n).amount = .num (max 0 q)) ∧
      (∀ v, getField n "amount" = some v → jsTruthy v = true →
        jsNumberOfJVal v = .nan → (importIncomeEntry fresh n).amount = .nan)) ∧
    (∀ (fresh : String) (n : JVal), n.isNull = false →
      (getField n "category" = none → (importExpenseEntry fresh n).category = .str "Other") ∧
      (getField n "id" = none → (importExpenseEntry fresh n).id = .str fresh) ∧
      (getField n "date" = none → (importExpenseEntry fresh n).date = .str "") ∧
      (getField n "desc" = none → (importExpenseEntry fresh n).desc = .str "") ∧
      (getField n "amount" = none → (importExpenseEntry fresh n).amount = .num 0) ∧
      (∀ q : ℚ, getField n "amount" = some (.num q) →
        (importExpenseEntry fresh n).amount = .num (max 0 q))) ∧
    runImport (some c1ExampleDoc) true (fun _ => "gen") (fun _ => "gen") =
      .success [⟨.str "gen", .str "2024-01-01", .str "X", .num 0, .str ""⟩] []
        defaultCategoryVals := by
  refine ⟨?_, ?_, ?_⟩
  · intro fresh n _
    refine ⟨fun h => by simp [importIncomeEntry, h, jsOrField],
      fun h => by simp [importIncomeEntry, h, jsOrField],
      fun h => by simp [importIncomeEntry, h, jsOrField],
      fun h => by simp [importIncomeEntry, h, jsOrField],
      fun h => by simp [importIncomeEntry, h, jsOrField, jsNumberOfJVal, jsMax0],
      ?_, ?_⟩
    · intro q h
      rcases eq_or_ne q 0 with rfl | hq
      · simp [importIncomeEntry, h, jsOrField, jsTruthy, jsNumberOfJVal, jsMax0]
      · simp [importIncomeEntry, h, jsOrField, jsTruthy, hq, jsNumberOfJVal, jsMax0]
    · intro v h htr hnan
      simp [importIncomeEntry, h, jsOrField, htr, hnan, jsMax0]
  · intro fresh n _
    refine ⟨fun h => by simp [importExpenseEntry, h, jsOrField],
      fun h => by simp [importExpenseEntry, h, jsOrField],
      fun h => by simp [importExpenseEntry, h, jsOrField],
      fun h => by simp [importExpenseEntry, h, jsOrField],
      fun h => by simp [importExpenseEntry, h, jsOrField, jsNumberOfJVal, jsMax0],
      ?_⟩
    intro q h
    rcases eq_or_ne q 0 with rfl | hq
    · simp [importExpenseEntry, h, jsOrField, jsTruthy, jsNumberOfJVal, jsMax0]
    · simp [importExpenseEntry, h, jsOrField, jsTruthy, hq, jsNumberOfJVal, jsMax0]
  · rfl

theorem c1_witness :
    (importIncomeEntry "w1" (.obj [])).id = .str "w1" ∧
    (importExpenseEntry "w2" (.obj [])).category = .str "Other" ∧
    (importIncomeEntry "w1" (.obj [("amount", .num (-50))])).amount =
      .num (max 0 (-50)) :=
  ⟨(c1_import_repair_amended.1 "w1" (.obj []) rfl).1 rfl,
   (c1_import_repair_amended.2.1 "w2" (.obj []) rfl).1 rfl,
   (c1_import_repair_amended.1 "w1" (.obj [("amount", .num (-50))]) rfl).2.2.2.2.2.1
     (-50) rfl⟩

theorem jsOr_str_empty (s : String) : jsOrField (some (.str s)) (.str "") = .str s := by
  rcases eq_or_ne s "" with rfl | h
  · simp [jsOrField, jsTruthy]
  · simp [jsOrField, jsTruthy, h]

theorem jsOr_num_zero (q : ℚ) : jsOrField (some (.num q)) (.num 0) = .num q := by
  rcases eq_or_ne q 0 with rfl | h
  · simp [jsOrField, jsTruthy]
  · simp [jsOrField, jsTruthy, h]

theorem amount_import_roundtrip (q : ℚ) (hq : 0 ≤ q) :
    jsMax0 (jsNumberOfJVal (jsOrField (some (.num q)) (.num 0))) = .num q := by
  rw [jsOr_num_zero]
  simp [jsNumberOfJVal, jsMax0, max_eq_right hq]

/-- Regenerate an identifier only when the stored one is falsy (the
entries the claim says lacked one); all other fields are untouched. -/
def regenIncomeId (fresh : String) (r : IncomeRow) : IncomeRow :=
  if jsTruthy r.id then r else { r with id := .str fresh }

/-- Expense version of regenIncomeId. -/
def regenExpenseId (fresh : String) (e : ExpenseRow) : ExpenseRow :=
  if jsTruthy e.id then e else { e with id := .str fresh }

/-- An income row whose fields carry the types the TypeScript
declarations promise, with a non-negative finite amount (the Ledger
invariant of the specification). -/
def TypedIncomeRow (r : IncomeRow) : Prop :=
  (∃ s, r.id = .str s) ∧ (∃ s, r.date = .str s) ∧ (∃ s, r.desc = .str s) ∧
  (∃ q, r.amount = .num q ∧ 0 ≤ q) ∧ (∃ s, r.notes = .str s)

/-- An expense row satisfying the TypeScript types and the Ledger
invariant, with a non-empty category. -/
def TypedExpenseRow (e : ExpenseRow) : Prop :=
  (∃ s, e.id = .str s) ∧ (∃ s, e.date = .str s) ∧
  (∃ s, e.category = .str s ∧ s ≠ "") ∧ (∃ s, e.desc = .str s) ∧
  (∃ q, e.amount = .num q ∧ 0 ≤ q) ∧ (∃ s, e.notes = .str s)

theorem amount_import_ite (q : ℚ) (hq : 0 ≤ q) :
    jsMax0 (jsNumberOfJVal (if q = 0 then JVal.num 0 else JVal.num q)) = .num q := by
  rcases eq_or_ne q 0 with rfl | h
  · simp [jsNumberOfJVal, jsMax0]
  · simp [h, jsNumberOfJVal, jsMax0, max_eq_right hq]

theorem import_export_income (fresh : String) (r : IncomeRow) (h : TypedIncomeRow r) :
    importIncomeEntry fresh (incomeRowToJson r) = regenIncomeId fresh r := by
  obtain ⟨⟨si, hi⟩, ⟨sd, hd⟩, ⟨ss, hs⟩, ⟨q, ha, hq⟩, ⟨sn, hn⟩⟩ := h
  cases r
  simp only at hi hd hs ha hn
  subst hi hd hs ha hn
  rcases eq_or_ne si "" with rfl | hsi
  · simp [importIncomeEntry, incomeRowToJson, regenIncomeId, getField, jsNumToJson,
      jsOrField, jsTruthy, amount_import_ite q hq]
    exact ⟨fun h => h.symm, fun h => h.symm, fun h => h.symm⟩
  · simp [importIncomeEntry, incomeRowToJson, regenIncomeId, getField, jsNumToJson,
      jsOrField, jsTruthy, hsi, amount_import_ite q hq]
    exact ⟨fun h => h.symm, fun h => h.symm, fun h => h.symm⟩

theorem import_export_expense (fresh : String) (e : ExpenseRow) (h : TypedExpenseRow e) :
    importExpenseEntry fresh (expenseRowToJson e) = regenExpenseId fresh e := by
  obtain ⟨⟨si, hi⟩, ⟨sd, hd⟩, ⟨sc, hc, hcne⟩, ⟨ss, hs⟩, ⟨q, ha, hq⟩, ⟨sn, hn⟩⟩ := h
  cases e
  simp only at hi hd hc hs ha hn
  subst hi hd hc hs ha hn
  rcases eq_or_ne si "" with rfl | hsi
  · simp [importExpenseEntry, expenseRowToJson, regenExpenseId, getField, jsNumToJson,
      jsOrField, jsTruthy, hcne, amount_import_ite q hq]
    exact ⟨fun h => h.symm, fun h => h.symm, fun h => h.symm⟩
  · simp [importExpenseEntry, expenseRowToJson, regenExpenseId, getField, jsNumToJson,
      jsOrField, jsTruthy, hsi, hcne, amount_import_ite q hq]
    exact ⟨fun h => h.symm, fun h => h.symm, fun h => h.symm⟩

theorem import_export_income_list (fI : ℕ → String) (rows : List IncomeRow) (k : ℕ)
    (h : ∀ r ∈ rows, TypedIncomeRow r) :
    mapWithIndex (fun i n => importIncomeEntry (fI i) n) k (rows.map incomeRowToJson) =
      mapWithIndex (fun i r => regenIncomeId (fI i) r) k rows := by
  induction rows generalizing k with
  | nil => rfl
  | cons r rs ih =>
    simp only [List.map_cons, mapWithIndex]
    rw [import_export_income (fI k) r (h r (by simp)),
      ih (k + 1) (fun x hx => h x (by simp [hx]))]

theorem import_export_expense_list (fE : ℕ → String) (rows : List ExpenseRow) (k : ℕ)
    (h : ∀ e ∈ rows, TypedExpenseRow e) :
    mapWithIndex (fun i n => importExpenseEntry (fE i) n) k (rows.map expenseRowToJson) =
      mapWithIndex (fun i e => regenExpenseId (fE i) e) k rows := by
  induction rows generalizing k with
  | nil => rfl
  | cons r rs ih =>
    simp only [List.map_cons, mapWithIndex]
    rw [import_export_expense (fE k) r (h r (by simp)),
      ih (k + 1) (fun x hx => h x (by simp [hx]))]

theorem income_json_not_null (rows : List IncomeRow) :
    (rows.map incomeRowToJson).any JVal.isNull = false := by
  induction rows with
  | nil => rfl
  | cons r rs ih => simp [incomeRowToJson, JVal.isNull, ih]

theorem expense_json_not_null (rows : List ExpenseRow) :
    (rows.map expenseRowToJson).any JVal.isNull = false := by
  induction rows with
  | nil => rfl
  | cons r rs ih => simp [expenseRowToJson, JVal.isNull, ih]

theorem dedup_absorb (l : List JVal) (acc : List JVal)
    (h : ∀ v ∈ l, acc.any (fun w => jvalSameValue w v) = true) :
    l.foldl (fun acc v =>
      if acc.any (fun w => jvalSameValue w v) then acc else acc ++ [v]) acc = acc := by
  induction l with
  | nil => rfl
  | cons x xs ih =>
    simp only [List.foldl_cons, h x (by simp), if_true]
    exact ih fun v hv => h v (by simp [hv])

theorem dedup_fresh_strs (names : List String) (acc : List JVal)
    (hnd : names.Nodup)
    (hnew : ∀ s ∈ names, acc.any (fun w => jvalSameValue w (.str s)) = false) :
    (names.map JVal.str).foldl (fun acc v =>
      if acc.any (fun w => jvalSameValue w v) then acc else acc ++ [v]) acc =
      acc ++ names.map JVal.str := by
  induction names generalizing acc with
  | nil => simp
  | cons t ts ih =>
    have hndc := List.nodup_cons.mp hnd
    simp only [List.map_cons, List.foldl_cons]
    rw [if_neg (by simp [hnew t (by simp)])]
    have hnew2 : ∀ s ∈ ts,
        ((acc ++ [JVal.str t]).any fun w => jvalSameValue w (.str s)) = false := by
      intro s hs
      have h1 : (acc.any fun w => jvalSameValue w (.str s)) = false :=
        hnew s (by simp [hs])
      have h2 : t ≠ s := fun h => hndc.1 (h ▸ hs)
      rw [List.any_append, h1]
      simp [jvalSameValue, h2]
    rw [ih (acc ++ [JVal.str t]) hndc.2 hnew2]
    simp

theorem dedupJs_preserves (names : List String) (ys : List JVal)
    (hnd : names.Nodup)
    (hys : ∀ v ∈ ys, ∃ s, v = .str s ∧ s ∈ names) :
    dedupJs (names.map JVal.str ++ ys) = names.map JVal.str := by
  rw [dedupJs, List.foldl_append]
  rw [dedup_fresh_strs names [] hnd (by simp)]
  rw [List.nil_append]
  refine dedup_absorb ys (names.map JVal.str) ?_
  intro v hv
  obtain ⟨s, rfl, hs⟩ := hys v hv
  rw [List.any_eq_true]
  exact ⟨.str s, List.mem_map_of_mem _ hs, by simp [jvalSameValue]⟩

theorem runImport_success (doc : JVal) (incs exps : List JVal)
    (fI fE : ℕ → String)
    (h1 : jsTruthy doc = true)
    (h2 : getField doc "income" = some (.arr incs))
    (h3 : getField doc "expenses" = some (.arr exps))
    (hni : incs.any JVal.isNull = false)
    (hne : exps.any JVal.isNull = false) :
    runImport (some doc) true fI fE =
      .success (mapWithIndex (fun i n => importIncomeEntry (fI i) n) 0 incs)
        (mapWithIndex (fun i n => importExpenseEntry (fE i) n) 0 exps)
        (importCategories doc
          (mapWithIndex (fun i n => importExpenseEntry (fE i) n) 0 exps)) := by
  simp only [runImport, h1, h2, h3, isArrOpt, hni, hne]
  simp

theorem mapWithIndex_mem {α β : Type} (f : ℕ → α → β) (k : ℕ) (l : List α) (b : β)
    (hb : b ∈ mapWithIndex f k l) : ∃ i a, a ∈ l ∧ b = f i a := by
  induction l generalizing k with
  | nil => simp [mapWithIndex] at hb
  | cons x xs ih =>
    simp only [mapWithIndex, List.mem_cons] at hb
    rcases hb with rfl | hb
    · exact ⟨k, x, by simp, rfl⟩
    · obtain ⟨i, a, ha, rfl⟩ := ih (k + 1) hb
      exact ⟨i, a, by simp [ha], rfl⟩

theorem regenExpenseId_category (s : String) (e : ExpenseRow) :
    (regenExpenseId s e).category = e.category := by
  rw [regenExpenseId]
  split <;> rfl

/-- Claim C3 (amended): for every ledger state satisfying the Ledger
invariant in typed form (string fields, finite non-negative amounts,
non-empty expense categories that are members of the category set, and a
non-empty duplicate-free category set), exporting and immediately
importing the produced document with confirmation reproduces the ledger:
every record keeps its date, description, amount, notes and category,
identifiers are regenerated exactly for the entries whose identifier was
empty, and the category set is preserved. -/
theorem c3_export_import_amended (st : AppState) (rate : JsNum) (ts : String)
    (fI fE : ℕ → String) (names : List String)
    (hcats : st.categories = names.map JVal.str)
    (hnempty : names ≠ [])
    (hnd : names.Nodup)
    (hinc : ∀ r ∈ st.income, TypedIncomeRow r)
    (hexp : ∀ e ∈ st.expenses, TypedExpenseRow e ∧
      ∃ s, e.category = .str s ∧ s ∈ names) :
    onFilePicked st (some (exportJSON st rate ts)) true fI fE =
      { income := mapWithIndex (fun i r => regenIncomeId (fI i) r) 0 st.income,
        expenses := mapWithIndex (fun i e => regenExpenseId (fE i) e) 0 st.expenses,
        categories := st.categories } := by
  have h1 : jsTruthy (exportJSON st rate ts) = true := rfl
  have h2 : getField (exportJSON st rate ts) "income" =
      some (.arr (st.income.map incomeRowToJson)) := rfl
  have h3 : getField (exportJSON st rate ts) "expenses" =
      some (.arr (st.expenses.map expenseRowToJson)) := rfl
  have h4 : getField (exportJSON st rate ts) "categories" =
      some (.arr st.categories) := rfl
  have hexpT : ∀ e ∈ st.expenses, TypedExpenseRow e := fun e he => (hexp e he).1
  have hrun := runImport_success (exportJSON st rate ts)
    (st.income.map incomeRowToJson) (st.expenses.map expenseRowToJson) fI fE
    h1 h2 h3 (income_json_not_null _) (expense_json_not_null _)
  have hlen : (names.map JVal.str).length ≠ 0 := by
    simpa using fun h => hnempty (List.length_eq_zero.mp (by simpa using h))
  have hmapmap : (names.map JVal.str).map (fun c => JVal.str (jsToString c)) =
      names.map JVal.str := by
    rw [List.map_map]
    exact List.map_congr_left fun s _ => by simp [Function.comp, jsToString]
  have hcatEq : importCategories (exportJSON st rate ts)
      (mapWithIndex (fun i e => regenExpenseId (fE i) e) 0 st.expenses) =
      st.categories := by
    simp only [importCategories, h4, hcats]
    rw [if_pos hlen, hmapmap]
    refine dedupJs_preserves names _ hnd ?_
    intro v hv
    obtain ⟨e, hemem, rfl⟩ := List.mem_map.mp hv
    obtain ⟨i, e0, he0, rfl⟩ := mapWithIndex_mem _ 0 st.expenses e hemem
    rw [regenExpenseId_category]
    exact (hexp e0 he0).2
  rw [onFilePicked, hrun]
  rw [import_export_income_list fI st.income 0 hinc,
    import_export_expense_list fE st.expenses 0 hexpT, hcatEq]

/-- Claim C3 counterexample: a reachable ledger whose one expense bears
a category absent from the category set (addExpense does not check
membership) does not round-trip: the import unions the referenced
category into the set, so the category set is not preserved. -/
def c3CexState : AppState :=
  ⟨[], [⟨.str "e1", .str "2024-01-02", .str "X", .str "Lunch", .num 100, .str ""⟩],
   [.str "Other"]⟩

theorem c3_counterexample :
    (onFilePicked c3CexState (some (exportJSON c3CexState (.num 1388) "t")) true
      (fun _ => "f") (fun _ => "f")).categories = [.str "Other", .str "X"] ∧
    c3CexState.categories = [.str "Other"] ∧
    ([JVal.str "Other", .str "X"] : List JVal) ≠ [JVal.str "Other"] := by
  refine ⟨rfl, rfl, by simp⟩

/-- A small well-formed ledger exercising both a kept and a regenerated
identifier. -/
def c3WitState : AppState :=
  ⟨[⟨.str "i1", .str "2024-01-01", .str "Pay", .num 100, .str ""⟩],
   [⟨.str "", .str "2024-01-02", .str "Other", .str "Lunch", .num 50, .str ""⟩],
   [.str "Other"]⟩

theorem c3_witness :
    onFilePicked c3WitState (some (exportJSON c3WitState (.num 1388) "t")) true
      (fun _ => "fi") (fun _ => "fe") =
      { income := mapWithIndex (fun i r => regenIncomeId ((fun _ => "fi") i) r) 0
          c3WitState.income,
        expenses := mapWithIndex (fun i e => regenExpenseId ((fun _ => "fe") i) e) 0
          c3WitState.expenses,
        categories := c3WitState.categories } :=
  c3_export_import_amended c3WitState (.num 1388) "t" (fun _ => "fi") (fun _ => "fe")
    ["Other"] rfl (by simp) (by simp)
    (by
      intro r hr
      simp only [c3WitState, List.mem_singleton] at hr
      subst hr
      exact ⟨⟨"i1", rfl⟩, ⟨"2024-01-01", rfl⟩, ⟨"Pay", rfl⟩,
        ⟨100, rfl, by norm_num⟩, ⟨"", rfl⟩⟩)
    (by
      intro e he
      simp only [c3WitState, List.mem_singleton] at he
      subst he
      exact ⟨⟨⟨"", rfl⟩, ⟨"2024-01-02", rfl⟩, ⟨"Other", rfl, by simp⟩,
        ⟨"Lunch", rfl⟩, ⟨50, rfl, by norm_num⟩, ⟨"", rfl⟩⟩,
        ⟨"Other", rfl, by simp⟩⟩)

theorem amountNum_num (q : ℚ) : amountNum (.num q) = .num q := by
  rcases eq_or_ne q 0 with rfl | h
  · simp [amountNum, jsTruthyN]
  · simp [amountNum, jsTruthyN, h]

theorem ifTruthyN_num (a : ℚ) :
    (if jsTruthyN (.num a) then JsNum.num a else .num 0) = .num a := by
  rcases eq_or_ne a 0 with rfl | h
  · simp [jsTruthyN]
  · simp [jsTruthyN, h]

/-- The specification formula the breakdown is compared against: the sum
of the amounts of the expenses bearing the given category name. -/
def specCategorySum (exps : List ExpenseRow) (s : String) : ℚ :=
  (exps.map fun e => if strictEqStr e.category s then ratOf e.amount else 0).sum

theorem sum_map_zero {α : Type} (l : List α) : (l.map fun _ => (0 : ℚ)).sum = 0 := by
  induction l <;> simp [*]

theorem sum_map_add {α : Type} (l : List α) (f g : α → ℚ) :
    (l.map fun x => f x + g x).sum = (l.map f).sum + (l.map g).sum := by
  induction l with
  | nil => simp
  | cons x xs ih => simp [ih]; ring

theorem sum_map_mul_right {α : Type} (l : List α) (f : α → ℚ) (c : ℚ) :
    (l.map fun x => f x * c).sum = (l.map f).sum * c := by
  induction l with
  | nil => simp
  | cons x xs ih => simp [ih]; ring

theorem sum_no_hit (names : List String) (t : String) (a : ℚ) (ht : t ∉ names) :
    (names.map fun s => if t = s then a else 0).sum = 0 := by
  induction names with
  | nil => simp
  | cons x xs ih =>
    have hx : t ≠ x := fun h => ht (by simp [h])
    simp [hx, ih (fun h => ht (by simp [h]))]

theorem sum_single_hit (names : List String) (t : String) (a : ℚ)
    (hnd : names.Nodup) (ht : t ∈ names) :
    (names.map fun s => if t = s then a else 0).sum = a := by
  induction names with
  | nil => simp at ht
  | cons x xs ih =>
    have hndc := List.nodup_cons.mp hnd
    rcases List.mem_cons.mp ht with rfl | hts
    · simp [sum_no_hit xs t a hndc.1]
    · have hx : t ≠ x := fun h => hndc.1 (h ▸ hts)
      simp [hx, ih hndc.2 hts]

theorem expense_foldl_amounts (exps : List ExpenseRow) (a : ℚ)
    (h : ∀ e ∈ exps, ∃ q, e.amount = .num q) :
    exps.foldl (fun s r => jsAdd s (amountNum r.amount)) (.num a) =
      .num (a + (exps.map fun e => ratOf e.amount).sum) := by
  induction exps generalizing a with
  | nil => simp
  | cons e es ih =>
    obtain ⟨q, hq⟩ := h e (by simp)
    simp only [List.foldl_cons, hq, amountNum_num, jsAdd_num]
    rw [ih (a + q) (fun x hx => h x (by simp [hx]))]
    simp only [List.map_cons, List.sum_cons, hq, ratOf]
    congr 1
    ring

theorem expenseTotal_eq (exps : List ExpenseRow)
    (h : ∀ e ∈ exps, ∃ q, e.amount = .num q) :
    expenseTotalKRW exps = .num ((exps.map fun e => ratOf e.amount).sum) := by
  rw [expenseTotalKRW, expense_foldl_amounts exps 0 h]
  simp

theorem byCat_foldl (exps : List ExpenseRow) (s : String) (a : ℚ)
    (h : ∀ e ∈ exps, (∃ q, e.amount = .num q) ∧ (∃ t, e.category = .str t)) :
    exps.foldl (fun acc e =>
      if jsToString e.category = s then
        jsAdd (if jsTruthyN acc then acc else .num 0) (amountNum e.amount)
      else acc) (.num a) = .num (a + specCategorySum exps s) := by
  induction exps generalizing a with
  | nil => simp [specCategorySum]
  | cons e es ih =>
    obtain ⟨⟨q, hq⟩, ⟨t, hc⟩⟩ := h e (by simp)
    have hrest : ∀ x ∈ es, (∃ q, x.amount = .num q) ∧ (∃ t, x.category = .str t) :=
      fun x hx => h x (by simp [hx])
    rcases eq_or_ne t s with rfl | hts
    · have hspec : specCategorySum (e :: es) t = q + specCategorySum es t := by
        simp [specCategorySum, hc, hq, strictEqStr, ratOf]
      simp only [List.foldl_cons, hc, hq]
      rw [if_pos (by simp [jsToString]), ifTruthyN_num, amountNum_num, jsAdd_num,
        ih (a + q) hrest, hspec]
      congr 1
      ring
    · have hspec : specCategorySum (e :: es) s = specCategorySum es s := by
        simp [specCategorySum, hc, hq, strictEqStr, ratOf, hts]
      simp only [List.foldl_cons, hc, hq]
      rw [if_neg (by simp [jsToString, hts]), ih a hrest, hspec]

theorem byCatAmt_eq (exps : List ExpenseRow) (s : String)
    (h : ∀ e ∈ exps, (∃ q, e.amount = .num q) ∧ (∃ t, e.category = .str t)) :
    byCatAmt exps s = .num (specCategorySum exps s) := by
  rw [byCatAmt, byCat_foldl exps s 0 h]
  simp

theorem spec_partition (exps : List ExpenseRow) (names : List String)
    (hnd : names.Nodup)
    (h : ∀ e ∈ exps, ∃ t, e.category = .str t ∧ t ∈ names) :
    (names.map fun s => specCategorySum exps s).sum =
      (exps.map fun e => ratOf e.amount).sum := by
  induction exps with
  | nil => simp [specCategorySum, sum_map_zero]
  | cons e es ih =>
    obtain ⟨t, hc, ht⟩ := h e (by simp)
    have hstep : ∀ s, specCategorySum (e :: es) s =
        (if t = s then ratOf e.amount else 0) + specCategorySum es s := by
      intro s
      simp [specCategorySum, hc, strictEqStr]
    calc (names.map fun s => specCategorySum (e :: es) s).sum
        = (names.map fun s =>
            (if t = s then ratOf e.amount else 0) + specCategorySum es s).sum := by
          exact congrArg List.sum (List.map_congr_left fun s _ => hstep s)
      _ = (names.map fun s => if t = s then ratOf e.amount else 0).sum +
            (names.map fun s => specCategorySum es s).sum :=
          sum_map_add names _ _
      _ = ratOf e.amount + (es.map fun x => ratOf x.amount).sum := by
          rw [sum_single_hit names t _ hnd ht, ih (fun x hx => h x (by simp [hx]))]
      _ = ((e :: es).map fun x => ratOf x.amount).sum := by simp

theorem breakdownAmt_str (exps : List ExpenseRow) (s : String)
    (h : ∀ e ∈ exps, (∃ q, e.amount = .num q) ∧ (∃ t, e.category = .str t)) :
    breakdownAmt exps (.str s) = .num (specCategorySum exps s) := by
  rw [breakdownAmt]
  have hkey : jsToString (JVal.str s) = s := rfl
  rw [hkey, byCatAmt_eq exps s h, ifTruthyN_num]

/-- Claim C8 (amended): for string categories in a duplicate-free set
covering every expense, the breakdown assigns to every category the sum
of the amounts of the expenses bearing it (0 for categories with no
transactions); the displayed percentage is amount divided by the total
when the total is nonzero and by 1 when it is zero (the source uses the
expression total or 1, which differs from max(total, 1) on fractional
totals below one); when the total is positive the percentages are
amount / total x 100 and sum to 100; and a category with no matching
expense reports exactly 0. -/
theorem c8_breakdown_amended (exps : List ExpenseRow) (names : List String)
    (hnd : names.Nodup)
    (h : ∀ e ∈ exps, ∃ t q, e.category = .str t ∧ t ∈ names ∧
      e.amount = .num q ∧ 0 ≤ q) :
    (∀ s : String, byCatAmt exps s = .num (specCategorySum exps s) ∧
      breakdownAmt exps (.str s) = .num (specCategorySum exps s)) ∧
    (∀ T : ℚ, expenseTotalKRW exps = .num T → 0 < T →
      (∀ s ∈ names, breakdownPct exps (.str s) =
        .num (specCategorySum exps s / T * 100)) ∧
      (names.map fun s => ratOf (breakdownPct exps (.str s))).sum = 100) ∧
    (∀ s : String, (∀ e ∈ exps, e.category ≠ .str s) →
      breakdownPct exps (.str s) = .num 0) := by
  have hfin : ∀ e ∈ exps, (∃ q, e.amount = .num q) ∧ (∃ t, e.category = .str t) := by
    intro e he
    obtain ⟨t, q, hc, _, hq, _⟩ := h e he
    exact ⟨⟨q, hq⟩, ⟨t, hc⟩⟩
  have hamt : ∀ e ∈ exps, ∃ q, e.amount = .num q := fun e he => (hfin e he).1
  have hmem : ∀ e ∈ exps, ∃ t, e.category = .str t ∧ t ∈ names := by
    intro e he
    obtain ⟨t, q, hc, ht, _, _⟩ := h e he
    exact ⟨t, hc, ht⟩
  have hpct : ∀ T : ℚ, expenseTotalKRW exps = .num T → T ≠ 0 → ∀ s : String,
      breakdownPct exps (.str s) = .num (specCategorySum exps s / T * 100) := by
    intro T hT hTne s
    have htr : jsTruthyN (.num T) = true := by simp [jsTruthyN, hTne]
    simp only [breakdownPct]
    rw [breakdownAmt_str exps s hfin, hT, if_pos htr, jsDiv_num _ _ hTne, jsMul_num]
  refine ⟨fun s => ⟨byCatAmt_eq exps s hfin, breakdownAmt_str exps s hfin⟩, ?_, ?_⟩
  · intro T hT hTpos
    have hTne := ne_of_gt hTpos
    refine ⟨fun s _ => hpct T hT hTne s, ?_⟩
    have hTsum : (exps.map fun e => ratOf e.amount).sum = T :=
      JsNum.num.inj ((expenseTotal_eq exps hamt).symm.trans hT)
    calc (names.map fun s => ratOf (breakdownPct exps (.str s))).sum
        = (names.map fun s => specCategorySum exps s * (100 / T)).sum := by
          refine congrArg List.sum (List.map_congr_left fun s _ => ?_)
          rw [hpct T hT hTne s]
          simp only [ratOf]
          ring
      _ = (names.map fun s => specCategorySum exps s).sum * (100 / T) :=
          sum_map_mul_right names _ _
      _ = T * (100 / T) := by rw [spec_partition exps names hnd hmem, hTsum]
      _ = 100 := by field_simp
  · intro s hnomatch
    have hspec0 : specCategorySum exps s = 0 := by
      have hterms : ∀ e ∈ exps,
          (if strictEqStr e.category s then ratOf e.amount else 0) = 0 := by
        intro e he
        obtain ⟨t, q, hc, _, _, _⟩ := h e he
        have hts : t ≠ s := fun hh => hnomatch e he (by rw [hc, hh])
        rw [hc]
        simp [strictEqStr, hts]
      rw [specCategorySum, List.map_congr_left hterms, sum_map_zero]
    have hba : breakdownAmt exps (.str s) = .num 0 := by
      rw [breakdownAmt_str exps s hfin, hspec0]
    simp only [breakdownPct]
    rw [hba, expenseTotal_eq exps hamt]
    rcases eq_or_ne ((exps.map fun e => ratOf e.amount).sum) 0 with hS | hS
    · rw [hS, if_neg (by simp [jsTruthyN]), jsDiv_num 0 1 one_ne_zero, jsMul_num]
      congr 1
      norm_num
    · rw [if_pos (by simp [jsTruthyN, hS]), jsDiv_num 0 _ hS, jsMul_num]
      congr 1
      norm_num

/-- Claim C8 counterexample: with one expense of amount one half, the
code computes amount / (total or 1) x 100 = 100 percent, while the
formula of the claim, amount / max(total, 1) x 100, gives 50 percent. -/
def c8CexExps : List ExpenseRow :=
  [⟨.str "e1", .str "2024-01-02", .str "Other", .str "x", .num (mkRat 1 2), .str ""⟩]

theorem c8_counterexample :
    breakdownPct c8CexExps (.str "Other") = .num 100 ∧
    (mkRat 1 2 : ℚ) / max (mkRat 1 2) 1 * 100 = 50 ∧
    (100 : ℚ) ≠ 50 := by
  refine ⟨by decide, ?_, by norm_num⟩
  have h : (mkRat 1 2 : ℚ) = 1 / 2 := by norm_num [Rat.mkRat_eq_div]
  rw [h]
  norm_num

def c8WitExps : List ExpenseRow :=
  [⟨.str "e1", .str "2024-01-02", .str "Other", .str "x", .num 100, .str ""⟩]

theorem c8_witness :
    byCatAmt c8WitExps "Other" = .num (specCategorySum c8WitExps "Other") ∧
    (["Other"].map fun s => ratOf (breakdownPct c8WitExps (.str s))).sum = 100 ∧
    breakdownPct c8WitExps (.str "Nothing") = .num 0 := by
  have hh : ∀ e ∈ c8WitExps, ∃ t q, e.category = .str t ∧ t ∈ ["Other"] ∧
      e.amount = .num q ∧ 0 ≤ q := by
    intro e he
    simp only [c8WitExps, List.mem_singleton] at he
    subst he
    exact ⟨"Other", 100, rfl, by simp, rfl, by norm_num⟩
  have hc8 := c8_breakdown_amended c8WitExps ["Other"] (by simp) hh
  exact ⟨(hc8.1 "Other").1,
    (hc8.2.1 100 (by decide) (by norm_num)).2,
    hc8.2.2 "Nothing" (by
      intro e he
      simp only [c8WitExps, List.mem_singleton] at he
      subst he
      simp)⟩
